import Mathlib

/-
Verification development for the SIMD-striped Smith-Waterman core:
the scoring model (scoring.cpp) and the SSE matrix mask / backtrace
cell-analysis layer (aligner_swsse.h).

Machine integers are modelled as Nat / Int; the float-valued N-ceiling
coefficients are modelled as rationals; the 16-bit per-cell mask words
are modelled as Nat values below 2^16 with explicit bit operations.
-/

namespace SW

/-- Scoring scheme parameters.  The struct layout comes from scoring.h,
which is not part of the excerpt; the fields are modelled from the spec
(section 4.1): a match bonus, non-negative affine gap costs exposed through
the accessors readGapOpen / readGapExtend / refGapOpen / refGapExtend,
the N-ceiling coefficients, the pair-concatenation flag, the gap barrier,
and the (read char, ref char, quality) score function used on the
diagonal test of analyzeCell.  The C++ field named match is called
matchBonus here because match is reserved in Lean. -/
structure Scoring where
  matchBonus : Int
  readGapOpen : Int
  readGapExtend : Int
  refGapOpen : Int
  refGapExtend : Int
  nCeilConst : ℚ
  nCeilLinear : ℚ
  ncatpair : Bool
  gapbar : Nat
  score : Nat → Nat → Int → Int

/-- Tail of the gap-counting while loops of Scoring::maxReadGaps and
Scoring::maxRefGaps after their first iteration is unrolled: while
minsc ≤ sc, subtract step and count one more iteration.  The C++ loop
diverges when step ≤ 0 (the decrement is not positive); the model
returns 0 there, and all theorems assume 0 < step. -/
def gapExtLoop (minsc step sc : Int) : Nat :=
  if sc < minsc then 0
  else if step ≤ 0 then 0
  else 1 + gapExtLoop minsc step (sc - step)
termination_by (sc - minsc + 1).toNat
decreasing_by omega

/-- Scoring::maxReadGaps (scoring.cpp lines 15-39): starting from
sc = rdlen * match, each iteration subtracts one match and then the
read-gap open cost (first iteration) or the read-gap extend cost
(subsequent iterations), while minsc ≤ sc; returns num - 1.
The first iteration is unrolled here: it runs exactly when the while
condition minsc ≤ rdlen * match holds, after which each iteration
subtracts matchBonus + readGapExtend. -/
def maxReadGaps (s : Scoring) (minsc : Int) (rdlen : Nat) : Int :=
  let sc : Int := (rdlen : Int) * s.matchBonus
  if sc < minsc then (0 : Int) - 1
  else ((1 + gapExtLoop minsc (s.matchBonus + s.readGapExtend)
          (sc - s.matchBonus - s.readGapOpen) : Nat) : Int) - 1

/-- Scoring::maxRefGaps (scoring.cpp lines 46-69): same loop shape as
maxReadGaps but no match is subtracted; the first iteration subtracts
only refGapOpen, subsequent iterations only refGapExtend. -/
def maxRefGaps (s : Scoring) (minsc : Int) (rdlen : Nat) : Int :=
  let sc : Int := (rdlen : Int) * s.matchBonus
  if sc < minsc then (0 : Int) - 1
  else ((1 + gapExtLoop minsc s.refGapExtend (sc - s.refGapOpen) : Nat) : Int) - 1

/-- Modelled from the spec (section 4.1), for comparison with the code:
the algorithm described there applied to reference gaps, including its
subtract one match step every iteration: start from sc = read_len * match;
repeatedly subtract one match and then the ref-gap open cost (first
iteration) or the ref-gap extend cost (subsequent iterations) until
sc < min_score; return count - 1. -/
def specMaxRefGaps (s : Scoring) (minsc : Int) (rdlen : Nat) : Int :=
  let sc : Int := (rdlen : Int) * s.matchBonus
  if sc < minsc then (0 : Int) - 1
  else ((1 + gapExtLoop minsc (s.matchBonus + s.refGapExtend)
          (sc - s.matchBonus - s.refGapOpen) : Nat) : Int) - 1

/-- Score of the hypothetical alignment of claim C3: all read positions
match except for k read gaps, which cost one forgone match each plus the
affine gap cost readGapOpen + (k-1) * readGapExtend. -/
def allMatchReadGapScore (s : Scoring) (rdlen k : Nat) : Int :=
  if k = 0 then (rdlen : Int) * s.matchBonus
  else (rdlen : Int) * s.matchBonus - (k : Int) * s.matchBonus
        - (s.readGapOpen + ((k : Int) - 1) * s.readGapExtend)

/-- Score of a hypothetical alignment in which all read positions match
and there are k reference gaps: reference gaps forgo no match bonus in
the code, so only the affine gap cost refGapOpen + (k-1) * refGapExtend
is subtracted. -/
def allMatchRefGapScore (s : Scoring) (rdlen k : Nat) : Int :=
  if k = 0 then (rdlen : Int) * s.matchBonus
  else (rdlen : Int) * s.matchBonus
        - (s.refGapOpen + ((k : Int) - 1) * s.refGapExtend)

/-- Number of N (code 4) bases in a read. -/
def countNs (rd : List Nat) : Nat := (rd.filter (fun c => c = 4)).length

/-- The scanning loop of Scoring::nFilter (scoring.cpp lines 82-87):
walk the read, increment the running N count at each N, and fail as soon
as the running count exceeds maxns. -/
def nFilterLoop (maxns : ℚ) (ns : ℚ) : List Nat → Bool
  | [] => true
  | c :: rest =>
      if c = 4 then
        if maxns < ns + 1 then false else nFilterLoop maxns (ns + 1) rest
      else nFilterLoop maxns ns rest

/-- Scoring::nFilter (scoring.cpp lines 76-89), release semantics (the
assert on non-emptiness compiled out): compute
maxns = nCeilConst + nCeilLinear * len, clamp negative values to 0,
and scan the read. -/
def nFilter (s : Scoring) (rd : List Nat) : Bool :=
  let maxns0 : ℚ := s.nCeilConst + s.nCeilLinear * (rd.length : ℚ)
  let maxns : ℚ := if maxns0 < 0 then 0 else maxns0
  nFilterLoop maxns 0 rd

/-- Scoring::nFilter with its assertion assert_gt(rd.length(), 0)
modelled: an assert-enabled build aborts (none) on an empty read instead
of returning a verdict. -/
def nFilterChecked (s : Scoring) (rd : List Nat) : Option Bool :=
  if rd.length = 0 then none else some (nFilter s rd)

/-- One mate loop of Scoring::nFilterPair in its concatenated branch
(scoring.cpp lines 120-133): the running N count is threaded through and
the check ns > maxns runs after every character, N or not.  Returns none
on early failure, otherwise the final running count. -/
def nFilterPairLoop (maxns : ℚ) : Nat → List Nat → Option Nat
  | ns, [] => some ns
  | ns, c :: rest =>
      let ns2 := if c = 4 then ns + 1 else ns
      if maxns < (ns2 : ℚ) then none else nFilterPairLoop maxns ns2 rest

/-- Scoring::nFilterPair (scoring.cpp lines 106-140).  A none read models
a NULL pointer argument.  In the concatenated branch the combined ceiling
nCeilConst + nCeilLinear * (len1 + len2) is not clamped at 0; in the
independent branch each present mate goes through nFilter. -/
def nFilterPair (s : Scoring) (rd1 rd2 : Option (List Nat)) : Bool × Bool :=
  match rd1, rd2 with
  | some r1, some r2 =>
    if s.ncatpair then
      let maxns : ℚ := s.nCeilConst + s.nCeilLinear * ((r1.length + r2.length : Nat) : ℚ)
      match nFilterPairLoop maxns 0 r1 with
      | none => (false, false)
      | some ns1 =>
        match nFilterPairLoop maxns ns1 r2 with
        | none => (false, false)
        | some _ => (true, true)
    else (nFilter s r1, nFilter s r2)
  | some r1, none => (nFilter s r1, false)
  | none, some r2 => (false, nFilter s r2)
  | none, none => (false, false)

/-- Bitwise complement within a 16-bit word: the C++ mask words are
uint16_t, so w &= ~p keeps only the low 16 bits. -/
def not16 (p : Nat) : Nat := 65535 ^^^ p

/-- SSEMatrix::reportedThrough on one mask word (aligner_swsse.h line 253):
bit 0. -/
def reportedThroughWord (w : Nat) : Bool := w &&& (1 <<< 0) ≠ 0

/-- SSEMatrix::setReportedThrough on one mask word (line 263). -/
def setReportedThroughWord (w : Nat) : Nat := w ||| (1 <<< 0)

/-- SSEMatrix::isHMaskSet on one mask word (line 654): bit 1. -/
def isHMaskSetWord (w : Nat) : Bool := w &&& (1 <<< 1) ≠ 0

/-- SSEMatrix::hMaskSet on one mask word (lines 668-669): clear with
~(31 << 1), then or in the H-set bit and the mask shifted to offset 2. -/
def hMaskSetWord (w : Nat) (mask : Nat) : Nat :=
  (w &&& not16 (31 <<< 1)) ||| ((1 <<< 1) ||| (mask <<< 2))

/-- The 5-bit H mask field as analyzeCell reads it (line 579):
(w >> 2) & 31. -/
def hMaskGetWord (w : Nat) : Nat := (w >>> 2) &&& 31

/-- SSEMatrix::isEMaskSet on one mask word (line 679): bit 7. -/
def isEMaskSetWord (w : Nat) : Bool := w &&& (1 <<< 7) ≠ 0

/-- SSEMatrix::eMaskSet on one mask word (lines 693-694). -/
def eMaskSetWord (w : Nat) (mask : Nat) : Nat :=
  (w &&& not16 (7 <<< 7)) ||| ((1 <<< 7) ||| (mask <<< 8))

/-- The 2-bit E mask field as analyzeCell reads it (line 466):
(w >> 8) & 3. -/
def eMaskGetWord (w : Nat) : Nat := (w >>> 8) &&& 3

/-- SSEMatrix::isFMaskSet on one mask word (line 704): bit 10. -/
def isFMaskSetWord (w : Nat) : Bool := w &&& (1 <<< 10) ≠ 0

/-- SSEMatrix::fMaskSet on one mask word (lines 718-719). -/
def fMaskSetWord (w : Nat) (mask : Nat) : Nat :=
  (w &&& not16 (7 <<< 10)) ||| ((1 <<< 10) ||| (mask <<< 11))

/-- The 2-bit F mask field as analyzeCell reads it (line 518):
(w >> 11) & 3. -/
def fMaskGetWord (w : Nat) : Nat := (w >>> 11) &&& 3

/-- Extract the 8-bit lane at index lane of a 128-bit vector word
(little-endian lane order), as the uint8_t pointer cast in
SSEMatrix::elt does. -/
def lane8 (v lane : Nat) : Nat := (v >>> (8 * lane)) &&& 255

/-- Interpret a 16-bit pattern as a signed int16_t value. -/
def int16 (n : Nat) : Int := if n < 32768 then (n : Int) else (n : Int) - 65536

/-- Extract the signed 16-bit lane at index lane of a 128-bit vector
word (little-endian lane order), as the int16_t pointer cast in
SSEMatrix::elt does. -/
def lane16 (v lane : Nat) : Int := int16 ((v >>> (16 * lane)) &&& 65535)

/-- SSEMatrix::elt (aligner_swsse.h lines 192-207).  The vector buffer
bufal is modelled as a map from vector index to the 128-bit word held
there.  rowelt = row / nvecrow selects the lane, rowvec = row % nvecrow
the striped vector row; the vector index is
col * colstride + rowvec * rowstride + mat, and the lane is read 8 bits
wide when wperv = 16, else as a signed 16-bit value. -/
def elt (wperv nvecrow colstride rowstride : Nat) (bufal : Nat → Nat)
    (row col mat : Nat) : Int :=
  let rowelt := row / nvecrow
  let rowvec := row % nvecrow
  let eltvec := col * colstride + rowvec * rowstride + mat
  if wperv = 16 then (lane8 (bufal eltvec) rowelt : Int)
  else lane16 (bufal eltvec) rowelt

/-- Modelled from the spec (section 9): the single striped row-to-lane
mapping function, logical_row mapped to (row mod S, row div S). -/
def stripedMap (S row : Nat) : Nat × Nat := (row % S, row / S)

/-- Modelled from the spec: reading the matrix value of a logical cell
through the striped mapping: take the vector at striped index
(stripedMap S row).fst of quartet slot mat within column col, and within
that vector the lane (stripedMap S row).snd, 8 bits wide when
wperv = 16 and signed 16 bits wide when wperv = 8. -/
def specStripedRead (wperv nvecrow colstride rowstride : Nat)
    (bufal : Nat → Nat) (row col mat : Nat) : Int :=
  let si := (stripedMap nvecrow row).fst
  let lane := (stripedMap nvecrow row).snd
  let v := bufal (col * colstride + si * rowstride + mat)
  if wperv = 16 then (lane8 v lane : Int) else lane16 v lane

/-- Modelled from the spec: the backtrack transition tags of
aligner_sw_common.h (not part of the excerpt), an enum starting at 0 in
the order diagonal, ref-gap open, read-gap open, ref-gap extend,
read-gap extend. -/
def SW_BT_OALL_DIAG : Nat := 0

/-- Modelled from the spec: see SW_BT_OALL_DIAG. -/
def SW_BT_OALL_REF_OPEN : Nat := 1

/-- Modelled from the spec: see SW_BT_OALL_DIAG. -/
def SW_BT_OALL_READ_OPEN : Nat := 2

/-- Modelled from the spec: see SW_BT_OALL_DIAG. -/
def SW_BT_RFGAP_EXTEND : Nat := 3

/-- Modelled from the spec: see SW_BT_OALL_DIAG. -/
def SW_BT_RDGAP_EXTEND : Nat := 4

/-- Indices of the set bits among the low five bits of a mask, in
increasing order. -/
def setBits5 (m : Nat) : List Nat := (List.range 5).filter (fun i => m.testBit i)

/-- Modelled from the spec (section 9): alts5 of mask.h, the popcount of
a 5-bit mask. -/
def alts5 (m : Nat) : Nat := (setBits5 m).length

/-- Modelled from the spec (section 9): firsts5 of mask.h, the index of
the lowest set bit of a 5-bit mask, -1 when the mask is empty. -/
def firsts5 (m : Nat) : Int :=
  match setBits5 m with
  | [] => (0 : Int) - 1
  | i :: _ => (i : Int)

/-- Modelled from the spec (section 9): randFromMask of mask.h picks one
set bit of the mask uniformly at random; here the next random value r
deterministically selects the (r mod popcount)-th set bit. -/
def nthSetBit5 (m k : Nat) : Nat := (setBits5 m).getD k 0

/-- mask &= ~(1 << select) on a 5-bit mask. -/
def clearBit5 (m sel : Nat) : Nat := m &&& (31 ^^^ (1 <<< sel))

/-- The five output reference parameters of SSEMatrix::analyzeCell.
Paths that return without assigning one of them leave the value the
caller passed in. -/
structure CellOut where
  empty : Bool
  cur : Nat
  branch : Bool
  canMoveThru : Bool
  reportedThru : Bool
deriving DecidableEq

/-- The gaps-allowed test of analyzeCell (lines 439-443): gaps are
forbidden when row < gapbar or nrow - row - 1 < gapbar. -/
def gapsAllowedB (nrow row gapbar : Nat) : Bool :=
  if row < gapbar ∨ nrow - row - 1 < gapbar then false else true

/-- The predecessor mask recomputed from scores in the E branch of
analyzeCell (lines 452-463): bit 0 when the H cell to the left opens a
read gap into this cell, bit 1 when the E cell to the left extends one;
both require the predecessor score to exceed the floor. -/
def eOrigMask (eeltM heltM : Nat → Nat → Int) (row col : Nat)
    (s : Scoring) (offsetsc floorsc : Int) : Nat :=
  let sc_cur := eeltM row col + offsetsc
  let sc_h_left := heltM row (col - 1) + offsetsc
  let sc_e_left := eeltM row (col - 1) + offsetsc
  (if floorsc < sc_h_left ∧ sc_h_left - s.readGapOpen = sc_cur then 1 else 0) |||
  (if floorsc < sc_e_left ∧ sc_e_left - s.readGapExtend = sc_cur then 2 else 0)

/-- The working mask of the E branch (lines 465-467): the stored 2-bit
E field when the E-set bit is on, else the freshly computed mask. -/
def eWorkMask (ncol : Nat) (eeltM heltM : Nat → Nat → Int) (row col : Nat)
    (s : Scoring) (offsetsc floorsc : Int) (masks : Nat → Nat) : Nat :=
  if isEMaskSetWord (masks (row * ncol + col))
  then eMaskGetWord (masks (row * ncol + col))
  else eOrigMask eeltM heltM row col s offsetsc floorsc

/-- The predecessor mask recomputed from scores in the F branch of
analyzeCell (lines 504-515): bit 0 when the H cell above opens a ref
gap into this cell, bit 1 when the F cell above extends one. -/
def fOrigMask (feltM heltM : Nat → Nat → Int) (row col : Nat)
    (s : Scoring) (offsetsc floorsc : Int) : Nat :=
  let sc_cur := feltM row col + offsetsc
  let sc_h_up := heltM (row - 1) col + offsetsc
  let sc_f_up := feltM (row - 1) col + offsetsc
  (if floorsc < sc_h_up ∧ sc_h_up - s.refGapOpen = sc_cur then 1 else 0) |||
  (if floorsc < sc_f_up ∧ sc_f_up - s.refGapExtend = sc_cur then 2 else 0)

/-- The working mask of the F branch (lines 517-519). -/
def fWorkMask (ncol : Nat) (feltM heltM : Nat → Nat → Int) (row col : Nat)
    (s : Scoring) (offsetsc floorsc : Int) (masks : Nat → Nat) : Nat :=
  if isFMaskSetWord (masks (row * ncol + col))
  then fMaskGetWord (masks (row * ncol + col))
  else fOrigMask feltM heltM row col s offsetsc floorsc

/-- The predecessor mask recomputed from scores in the H branch of
analyzeCell (lines 552-576).  The four gap predecessors (bits 0-3) are
tested only when gaps are allowed; the diagonal predecessor (bit 4) is
always tested.  In column 0 the left and up-left scores fall back to
the floor, so those predecessors never qualify. -/
def hOrigMask (eeltM feltM heltM : Nat → Nat → Int) (row col refc readc : Nat)
    (readq : Int) (s : Scoring) (offsetsc floorsc : Int) (ga : Bool) : Nat :=
  let sc_cur := heltM row col + offsetsc
  let sc_f_up := feltM (row - 1) col + offsetsc
  let sc_h_up := heltM (row - 1) col + offsetsc
  let sc_h_left := if 0 < col then heltM row (col - 1) + offsetsc else floorsc
  let sc_e_left := if 0 < col then eeltM row (col - 1) + offsetsc else floorsc
  let sc_h_upleft := if 0 < col then heltM (row - 1) (col - 1) + offsetsc else floorsc
  let sc_diag := s.score readc refc (readq - 33)
  (if ga then
    (if floorsc < sc_h_up ∧ sc_cur = sc_h_up - s.refGapOpen then 1 else 0) |||
    (if floorsc < sc_h_left ∧ sc_cur = sc_h_left - s.readGapOpen then 2 else 0) |||
    (if floorsc < sc_f_up ∧ sc_cur = sc_f_up - s.refGapExtend then 4 else 0) |||
    (if floorsc < sc_e_left ∧ sc_cur = sc_e_left - s.readGapExtend then 8 else 0)
   else 0) |||
  (if floorsc < sc_h_upleft ∧ sc_cur = sc_h_upleft + sc_diag then 16 else 0)

/-- The working mask of the H branch (lines 578-580). -/
def hWorkMask (ncol : Nat) (eeltM feltM heltM : Nat → Nat → Int)
    (row col refc readc : Nat) (readq : Int) (s : Scoring)
    (offsetsc floorsc : Int) (ga : Bool) (masks : Nat → Nat) : Nat :=
  if isHMaskSetWord (masks (row * ncol + col))
  then hMaskGetWord (masks (row * ncol + col))
  else hOrigMask eeltM feltM heltM row col refc readc readq s offsetsc floorsc ga

/-- The select-to-transition translation of the H branch
(lines 596-608). -/
def hSelTrans (sel : Int) : Nat :=
  if sel = 4 then SW_BT_OALL_DIAG
  else if sel = 0 then SW_BT_OALL_REF_OPEN
  else if sel = 1 then SW_BT_OALL_READ_OPEN
  else if sel = 2 then SW_BT_RFGAP_EXTEND
  else SW_BT_RDGAP_EXTEND

/-- The E branch of analyzeCell (lines 444-495).  The result carries the
out parameters, the updated mask array, and the remaining random stream;
rand.nextU2() consumes the head of the stream. -/
def analyzeCellE (ncol : Nat) (eeltM heltM : Nat → Nat → Int) (row col : Nat)
    (s : Scoring) (offsetsc floorsc : Int) (masks : Nat → Nat)
    (rng : List Nat) (o : CellOut) : CellOut × (Nat → Nat) × List Nat :=
  let idx := row * ncol + col
  let origMask := eOrigMask eeltM heltM row col s offsetsc floorsc
  let mask := eWorkMask ncol eeltM heltM row col s offsetsc floorsc masks
  if mask = 3 then
    if rng.headD 0 % 2 ≠ 0 then
      ({ o with cur := SW_BT_OALL_READ_OPEN, branch := true },
        Function.update masks idx (eMaskSetWord (masks idx) 2), rng.tail)
    else
      ({ o with cur := SW_BT_RDGAP_EXTEND, branch := true },
        Function.update masks idx (eMaskSetWord (masks idx) 1), rng.tail)
  else if mask = 2 then
    ({ o with cur := SW_BT_RDGAP_EXTEND },
      Function.update masks idx (eMaskSetWord (masks idx) 0), rng)
  else if mask = 1 then
    ({ o with cur := SW_BT_OALL_READ_OPEN },
      Function.update masks idx (eMaskSetWord (masks idx) 0), rng)
  else
    ({ o with empty := true, canMoveThru := origMask == 0 }, masks, rng)

/-- The F branch of analyzeCell (lines 496-547). -/
def analyzeCellF (ncol : Nat) (feltM heltM : Nat → Nat → Int) (row col : Nat)
    (s : Scoring) (offsetsc floorsc : Int) (masks : Nat → Nat)
    (rng : List Nat) (o : CellOut) : CellOut × (Nat → Nat) × List Nat :=
  let idx := row * ncol + col
  let origMask := fOrigMask feltM heltM row col s offsetsc floorsc
  let mask := fWorkMask ncol feltM heltM row col s offsetsc floorsc masks
  if mask = 3 then
    if rng.headD 0 % 2 ≠ 0 then
      ({ o with cur := SW_BT_OALL_REF_OPEN, branch := true },
        Function.update masks idx (fMaskSetWord (masks idx) 2), rng.tail)
    else
      ({ o with cur := SW_BT_RFGAP_EXTEND, branch := true },
        Function.update masks idx (fMaskSetWord (masks idx) 1), rng.tail)
  else if mask = 2 then
    ({ o with cur := SW_BT_RFGAP_EXTEND },
      Function.update masks idx (fMaskSetWord (masks idx) 0), rng)
  else if mask = 1 then
    ({ o with cur := SW_BT_OALL_REF_OPEN },
      Function.update masks idx (fMaskSetWord (masks idx) 0), rng)
  else
    ({ o with empty := true, canMoveThru := origMask == 0 }, masks, rng)

/-- The H branch of analyzeCell (lines 548-617).  With one option the
lowest set bit is selected and the stored mask becomes 0; with several,
the next random value picks one set bit, which is cleared from the
stored mask; with none the cell is empty and may end an alignment only
when the recomputed mask is 0. -/
def analyzeCellH (ncol : Nat) (eeltM feltM heltM : Nat → Nat → Int)
    (row col refc readc : Nat) (readq : Int) (s : Scoring)
    (offsetsc floorsc : Int) (ga : Bool) (masks : Nat → Nat)
    (rng : List Nat) (o : CellOut) : CellOut × (Nat → Nat) × List Nat :=
  let idx := row * ncol + col
  let origMask := hOrigMask eeltM feltM heltM row col refc readc readq s offsetsc floorsc ga
  let mask := hWorkMask ncol eeltM feltM heltM row col refc readc readq s offsetsc floorsc ga masks
  let opts := alts5 mask
  if opts = 1 then
    ({ o with cur := hSelTrans (firsts5 mask) },
      Function.update masks idx (hMaskSetWord (masks idx) 0), rng)
  else if 1 < opts then
    let sel := nthSetBit5 mask (rng.headD 0 % opts)
    ({ o with cur := hSelTrans (sel : Int), branch := true },
      Function.update masks idx (hMaskSetWord (masks idx) (clearBit5 mask sel)), rng.tail)
  else
    ({ o with empty := true, canMoveThru := origMask == 0 }, masks, rng)

/-- SSEMatrix::analyzeCell (aligner_swsse.h lines 410-644).  ct is the
cell type (0 = E, 1 = F, otherwise H as the source asserts ct == H).
The out-parameter record o0 carries the values the caller passed in;
the prologue always writes reportedThru, sets canMoveThru to true
(then false again on the reported-through early return) and empty to
false before dispatching on the cell type. -/
def analyzeCell (nrow ncol : Nat) (eeltM feltM heltM : Nat → Nat → Int)
    (row col ct refc readc : Nat) (readq : Int) (s : Scoring)
    (offsetsc floorsc : Int) (masks : Nat → Nat) (rng : List Nat)
    (o0 : CellOut) : CellOut × (Nat → Nat) × List Nat :=
  let idx := row * ncol + col
  if reportedThroughWord (masks idx) then
    ({ o0 with reportedThru := true, canMoveThru := false }, masks, rng)
  else
    let o1 : CellOut := { o0 with reportedThru := false, canMoveThru := true, empty := false }
    if row = 0 then (o1, masks, rng)
    else if ct = 0 then analyzeCellE ncol eeltM heltM row col s offsetsc floorsc masks rng o1
    else if ct = 1 then analyzeCellF ncol feltM heltM row col s offsetsc floorsc masks rng o1
    else analyzeCellH ncol eeltM feltM heltM row col refc readc readq s offsetsc floorsc
           (gapsAllowedB nrow row s.gapbar) masks rng o1

/-- A concrete scoring scheme for instantiations, with the parameters of
the bwaSwLike scheme exercised by the test main of scoring.cpp:
match bonus 1, read and ref gaps 15 to open and 4 to extend,
N ceiling 2 + 0.1 * len, mates concatenated, gap barrier 5. -/
def scTest : Scoring :=
  { matchBonus := 1, readGapOpen := 15, readGapExtend := 4,
    refGapOpen := 15, refGapExtend := 4,
    nCeilConst := 2, nCeilLinear := 1/10, ncatpair := true, gapbar := 5,
    score := fun _ _ _ => 1 }

/-- C1: the claim says that after hMaskSet(r, c, m) the 5-bit H mask
field reads back exactly m regardless of the previously stored value.
The code clears only ~(31 << 1), bits 1 to 5, while the field occupies
bits 2 to 6, so the top mask bit of an earlier write survives: writing
mask 16 and then mask 0 into a fresh cell word leaves a field that
reads back 16, not 0.  This contradicts the doc comment of hMaskSet
itself (5 bits at offset 2) and the pattern of eMaskSet and fMaskSet,
which both clear flag plus field; the claim is right and the code
wrong. -/
theorem hMaskSet_stale_top_bit :
    isHMaskSetWord (hMaskSetWord (hMaskSetWord 0 16) 0) = true ∧
    hMaskGetWord (hMaskSetWord (hMaskSetWord 0 16) 0) = 16 ∧
    hMaskGetWord (hMaskSetWord (hMaskSetWord 0 16) 0) ≠ 0 := by decide

/-- C9: elt reads the matrix value at exactly the position given by the
striped mapping function of the spec: striped index row mod S, lane
row div S, with an 8-bit lane when wperv = 16 and a signed 16-bit lane
when wperv = 8. -/
theorem elt_eq_specStripedRead (wperv nvecrow colstride rowstride : Nat)
    (bufal : Nat → Nat) (row col mat : Nat) :
    elt wperv nvecrow colstride rowstride bufal row col mat =
      specStripedRead wperv nvecrow colstride rowstride bufal row col mat := rfl

/-- C10: nFilter has an undocumented non-emptiness precondition: on the
empty read the assertion assert_gt(rd.length(), 0) fails and no verdict
is returned, while under len ≥ 1 the assertion holds and nFilter
returns a verdict. -/
theorem nFilterChecked_empty_aborts (s : Scoring) (rd : List Nat) (hne : rd ≠ []) :
    nFilterChecked s [] = none ∧ nFilterChecked s rd = some (nFilter s rd) := by
  refine ⟨rfl, ?_⟩
  have hlen : rd.length ≠ 0 := by
    simpa using List.length_pos.mpr hne |>.ne'
  simp [nFilterChecked, hlen]

/-- Witness for C10 at the read [4] and the bwaSwLike-style scheme. -/
theorem nFilterChecked_empty_aborts_witness :
    nFilterChecked scTest [] = none ∧
    nFilterChecked scTest [4] = some (nFilter scTest [4]) :=
  nFilterChecked_empty_aborts scTest [4] (by decide)

/-- C7: when the reported-through bit of the cell is set, analyzeCell
returns immediately: canMoveThru is false, the mask array and the
random stream are returned unchanged, and the result does not depend on
the score matrices (the equality holds for every eeltM, feltM, heltM). -/
theorem analyzeCell_reportedThrough (nrow ncol : Nat)
    (eeltM feltM heltM : Nat → Nat → Int) (row col ct refc readc : Nat)
    (readq : Int) (s : Scoring) (offsetsc floorsc : Int)
    (masks : Nat → Nat) (rng : List Nat) (o0 : CellOut)
    (hrep : reportedThroughWord (masks (row * ncol + col)) = true) :
    analyzeCell nrow ncol eeltM feltM heltM row col ct refc readc readq s
        offsetsc floorsc masks rng o0 =
      ({ o0 with reportedThru := true, canMoveThru := false }, masks, rng) := by
  simp [analyzeCell, hrep]

/-- Witness for C7: a cell whose mask word is 1 (only the
reported-through bit set). -/
theorem analyzeCell_reportedThrough_witness :
    analyzeCell 4 4 (fun _ _ => 0) (fun _ _ => 0) (fun _ _ => 0) 1 1 2 0 0 63
        scTest 0 0 (fun _ => 1) [7] ⟨false, 0, false, false, false⟩ =
      (⟨false, 0, false, false, true⟩, (fun _ => 1), [7]) :=
  analyzeCell_reportedThrough 4 4 (fun _ _ => 0) (fun _ _ => 0) (fun _ _ => 0)
    1 1 2 0 0 63 scTest 0 0 (fun _ => 1) [7] ⟨false, 0, false, false, false⟩
    (by decide)

/-- Fuel-indexed characterization of gapExtLoop: the returned count n is
the first number of steps that drops sc below minsc, so sc - n * step is
below minsc while no earlier running sum is. -/
lemma gapExtLoop_bound (minsc step : Int) (hstep : 0 < step) :
    ∀ n : Nat, ∀ sc : Int, (sc - minsc + 1).toNat ≤ n →
      sc - (gapExtLoop minsc step sc : Int) * step < minsc ∧
      ∀ i : Nat, i < gapExtLoop minsc step sc → minsc ≤ sc - (i : Int) * step := by
  intro n
  induction n with
  | zero =>
    intro sc hsc
    have hlt : sc < minsc := by omega
    rw [gapExtLoop]
    simp [hlt]
  | succ n ih =>
    intro sc hsc
    by_cases hlt : sc < minsc
    · rw [gapExtLoop]
      simp [hlt]
    · have hstep' : ¬ step ≤ 0 := by omega
      have hrec := ih (sc - step) (by omega)
      rw [gapExtLoop]
      simp only [hlt, hstep', if_false]
      constructor
      · have := hrec.1
        push_cast
        linarith [hrec.1]
      · intro i hi
        cases i with
        | zero => simpa using not_lt.mp hlt
        | succ j =>
          have hj : j < gapExtLoop minsc step (sc - step) := by omega
          have := hrec.2 j hj
          push_cast
          push_cast at this
          linarith

/-- Pointwise form of gapExtLoop_bound. -/
lemma gapExtLoop_spec (minsc step sc : Int) (hstep : 0 < step) :
    sc - (gapExtLoop minsc step sc : Int) * step < minsc ∧
    ∀ i : Nat, i < gapExtLoop minsc step sc → minsc ≤ sc - (i : Int) * step :=
  gapExtLoop_bound minsc step hstep (sc - minsc + 1).toNat sc le_rfl

/-- C3: under the precondition min_score ≤ read_len * match (and a
positive per-iteration decrement, without which the source loop would
not terminate), maxReadGaps returns the boundary k: the all-match score
with k read gaps is still at least min_score while the score with k + 1
read gaps is below it. -/
theorem maxReadGaps_boundary (s : Scoring) (minsc : Int) (rdlen : Nat)
    (hstep : 0 < s.matchBonus + s.readGapExtend)
    (hpre : minsc ≤ (rdlen : Int) * s.matchBonus) :
    ∃ k : Nat, maxReadGaps s minsc rdlen = (k : Int) ∧
      minsc ≤ allMatchReadGapScore s rdlen k ∧
      allMatchReadGapScore s rdlen (k + 1) < minsc := by
  have hnlt : ¬ ((rdlen : Int) * s.matchBonus < minsc) := not_lt.mpr hpre
  set step : Int := s.matchBonus + s.readGapExtend with hstepdef
  set sc1 : Int := (rdlen : Int) * s.matchBonus - s.matchBonus - s.readGapOpen with hsc1
  obtain ⟨hlt, hge⟩ := gapExtLoop_spec minsc step sc1 hstep
  refine ⟨gapExtLoop minsc step sc1, ?_, ?_, ?_⟩
  · simp only [maxReadGaps, hnlt, if_false]
    push_cast
    ring
  · cases hk : gapExtLoop minsc step sc1 with
    | zero => simpa [allMatchReadGapScore] using hpre
    | succ j =>
      have := hge j (by omega)
      simp only [allMatchReadGapScore, Nat.succ_ne_zero, if_false]
      push_cast
      push_cast at this
      nlinarith [this]
  · have := hlt
    simp only [allMatchReadGapScore, Nat.succ_ne_zero, if_false]
    push_cast
    nlinarith [hlt]

/-- Witness for C3 at the bwaSwLike-style scheme, min score 0 and read
length 16 (the case asserted equal to 1 by the test main). -/
theorem maxReadGaps_boundary_witness :
    ∃ k : Nat, maxReadGaps scTest 0 16 = (k : Int) ∧
      0 ≤ allMatchReadGapScore scTest 16 k ∧
      allMatchReadGapScore scTest 16 (k + 1) < 0 :=
  maxReadGaps_boundary scTest 0 16 (by norm_num [scTest]) (by norm_num [scTest])

/-- C2 counterexample: at the bwaSwLike-style scheme with min score 0
and read length 15 (which satisfies the precondition 15 * 1 ≥ 0),
the algorithm the spec describes, which subtracts one match per gap,
returns 0, while maxRefGaps as coded subtracts no match per reference
gap and returns 1 (the value the test main of scoring.cpp asserts). -/
theorem specMaxRefGaps_ne_maxRefGaps :
    specMaxRefGaps scTest 0 15 = 0 ∧ maxRefGaps scTest 0 15 = 1 ∧
    specMaxRefGaps scTest 0 15 ≠ maxRefGaps scTest 0 15 := by
  have h1 : gapExtLoop 0 5 (-1) = 0 := by rw [gapExtLoop]; norm_num
  have h2 : gapExtLoop 0 4 (-4) = 0 := by rw [gapExtLoop]; norm_num
  have h3 : gapExtLoop 0 4 0 = 1 := by rw [gapExtLoop]; norm_num [h2]
  refine ⟨?_, ?_, ?_⟩ <;>
    norm_num [specMaxRefGaps, maxRefGaps, scTest, h1, h2, h3]

/-- C2 amended: under the precondition min_score ≤ read_len * match
(and a positive extension cost, without which the source loop would not
terminate), maxRefGaps computes the boundary of the algorithm of the
spec with the subtract-one-match step removed: the returned k is such that
read_len * match - (refGapOpen + (k - 1) * refGapExtend) is still at
least min_score while the same score with k + 1 gaps is below it. -/
theorem maxRefGaps_boundary (s : Scoring) (minsc : Int) (rdlen : Nat)
    (hstep : 0 < s.refGapExtend)
    (hpre : minsc ≤ (rdlen : Int) * s.matchBonus) :
    ∃ k : Nat, maxRefGaps s minsc rdlen = (k : Int) ∧
      minsc ≤ allMatchRefGapScore s rdlen k ∧
      allMatchRefGapScore s rdlen (k + 1) < minsc := by
  have hnlt : ¬ ((rdlen : Int) * s.matchBonus < minsc) := not_lt.mpr hpre
  set step : Int := s.refGapExtend with hstepdef
  set sc1 : Int := (rdlen : Int) * s.matchBonus - s.refGapOpen with hsc1
  obtain ⟨hlt, hge⟩ := gapExtLoop_spec minsc step sc1 hstep
  refine ⟨gapExtLoop minsc step sc1, ?_, ?_, ?_⟩
  · simp only [maxRefGaps, hnlt, if_false]
    push_cast
    ring
  · cases hk : gapExtLoop minsc step sc1 with
    | zero => simpa [allMatchRefGapScore] using hpre
    | succ j =>
      have := hge j (by omega)
      simp only [allMatchRefGapScore, Nat.succ_ne_zero, if_false]
      push_cast
      push_cast at this
      nlinarith [this]
  · simp only [allMatchRefGapScore, Nat.succ_ne_zero, if_false]
    push_cast
    nlinarith [hlt]

/-- Witness for the amended C2 at the bwaSwLike-style scheme, min score
0 and read length 15 (the case asserted equal to 1 by the test main). -/
theorem maxRefGaps_boundary_witness :
    ∃ k : Nat, maxRefGaps scTest 0 15 = (k : Int) ∧
      0 ≤ allMatchRefGapScore scTest 15 k ∧
      allMatchRefGapScore scTest 15 (k + 1) < 0 :=
  maxRefGaps_boundary scTest 0 15 (by norm_num [scTest]) (by norm_num [scTest])

/-- countNs on a cons cell. -/
lemma countNs_cons (c : Nat) (rest : List Nat) :
    countNs (c :: rest) = (if c = 4 then 1 else 0) + countNs rest := by
  by_cases hc : c = 4 <;> simp [countNs, List.filter_cons, hc, Nat.add_comm]

/-- The nFilter scan passes exactly when the final N count fits under
the ceiling, provided the running count fits on entry. -/
lemma nFilterLoop_spec (maxns : ℚ) :
    ∀ rd : List Nat, ∀ ns : ℚ, ns ≤ maxns →
      (nFilterLoop maxns ns rd = true ↔ ns + (countNs rd : ℚ) ≤ maxns) := by
  intro rd
  induction rd with
  | nil => intro ns h; simpa [nFilterLoop, countNs] using h
  | cons c rest ih =>
    intro ns h
    by_cases hc : c = 4
    · rw [countNs_cons]
      simp only [nFilterLoop, hc, if_true]
      by_cases h1 : maxns < ns + 1
      · have hcnt : (0 : ℚ) ≤ ((countNs rest : Nat) : ℚ) := by positivity
        simp only [h1, if_true]
        constructor
        · intro hfalse; exact absurd hfalse (by simp)
        · intro hle
          push_cast at hle
          linarith
      · simp only [h1, if_false]
        rw [ih (ns + 1) (not_lt.mp h1)]
        constructor <;> intro hle <;> push_cast at hle ⊢ <;> linarith
    · rw [countNs_cons]
      simp only [nFilterLoop, hc, if_false]
      rw [ih ns h]
      constructor <;> intro hle <;> push_cast at hle ⊢ <;> linarith

/-- C4: for every non-empty read, nFilter passes exactly when the
number of N bases is at most the floor of the clamped ceiling
max 0 (nCeilConst + nCeilLinear * len); in particular a read with no
Ns always passes. -/
theorem nFilter_ceiling (s : Scoring) (rd : List Nat) (hne : rd ≠ []) :
    (nFilter s rd = true ↔
      (countNs rd : Int) ≤ ⌊max 0 (s.nCeilConst + s.nCeilLinear * (rd.length : ℚ))⌋) ∧
    (countNs rd = 0 → nFilter s rd = true) := by
  set maxns0 : ℚ := s.nCeilConst + s.nCeilLinear * (rd.length : ℚ) with hm0
  have hclamp : (if maxns0 < 0 then (0 : ℚ) else maxns0) = max 0 maxns0 := by
    rcases lt_or_le maxns0 0 with h | h
    · simp [h, max_eq_left h.le]
    · simp [not_lt.mpr h, max_eq_right h]
  have hnn : (0 : ℚ) ≤ max 0 maxns0 := le_max_left 0 maxns0
  have hmain : nFilter s rd = true ↔ (0 : ℚ) + (countNs rd : ℚ) ≤ max 0 maxns0 := by
    show nFilterLoop (if maxns0 < 0 then 0 else maxns0) 0 rd = true ↔
      (0 : ℚ) + (countNs rd : ℚ) ≤ max 0 maxns0
    rw [hclamp]
    exact nFilterLoop_spec (max 0 maxns0) rd 0 hnn
  constructor
  · rw [hmain, Int.le_floor]
    push_cast
    constructor <;> intro h <;> linarith
  · intro h0
    rw [hmain, h0]
    push_cast
    linarith

/-- Witness for C4 at the read [0, 4] (one N, length 2) and the
bwaSwLike-style scheme (ceiling 2 + 0.1 * 2). -/
theorem nFilter_ceiling_witness :
    (nFilter scTest [0, 4] = true ↔
      (countNs [0, 4] : Int) ≤ ⌊max 0 (scTest.nCeilConst + scTest.nCeilLinear * ((List.length [0, 4] : Nat) : ℚ))⌋) ∧
    (countNs [0, 4] = 0 → nFilter scTest [0, 4] = true) :=
  nFilter_ceiling scTest [0, 4] (by decide)

/-- One concatenated-branch mate scan: on a non-empty mate the result is
determined by the final running count alone, because the running count
is largest after the last character and the check runs after every
character. -/
lemma nFilterPairLoop_spec (maxns : ℚ) :
    ∀ rd : List Nat, rd ≠ [] → ∀ ns : Nat,
      nFilterPairLoop maxns ns rd =
        if maxns < ((ns + countNs rd : Nat) : ℚ) then none
        else some (ns + countNs rd) := by
  intro rd
  induction rd with
  | nil => intro h; exact absurd rfl h
  | cons c rest ih =>
    intro _ ns
    have hstep : nFilterPairLoop maxns ns (c :: rest) =
        (if maxns < (((if c = 4 then ns + 1 else ns) : Nat) : ℚ) then none
         else nFilterPairLoop maxns (if c = 4 then ns + 1 else ns) rest) := rfl
    have htot : ns + countNs (c :: rest) = (if c = 4 then ns + 1 else ns) + countNs rest := by
      rw [countNs_cons]
      by_cases hc : c = 4 <;> simp [hc] <;> omega
    set ns2 : Nat := if c = 4 then ns + 1 else ns with hns2
    rw [hstep, htot]
    have hmono : ((ns2 : Nat) : ℚ) ≤ ((ns2 + countNs rest : Nat) : ℚ) := by
      exact_mod_cast Nat.le_add_right ns2 (countNs rest)
    by_cases hrest : rest = []
    · subst hrest
      have h0 : countNs ([] : List Nat) = 0 := rfl
      rw [h0, Nat.add_zero]
      by_cases hck : maxns < ((ns2 : Nat) : ℚ)
      · rw [if_pos hck, if_pos hck]
      · rw [if_neg hck, if_neg hck]
        rfl
    · rw [ih hrest ns2]
      by_cases hck : maxns < ((ns2 : Nat) : ℚ)
      · rw [if_pos hck, if_pos (lt_of_lt_of_le hck hmono)]
      · rw [if_neg hck]

/-- The concatenated branch of nFilterPair in closed form: both mates
pass exactly when both are empty (no check ever runs) or the total N
count fits under the unclamped combined ceiling; otherwise both fail. -/
lemma nFilterPairCat_eq (s : Scoring) (r1 r2 : List Nat) (hcat : s.ncatpair = true) :
    nFilterPair s (some r1) (some r2) =
      if (r1 = [] ∧ r2 = []) ∨
         ((countNs r1 + countNs r2 : Nat) : ℚ) ≤
           s.nCeilConst + s.nCeilLinear * ((r1.length + r2.length : Nat) : ℚ)
      then (true, true) else (false, false) := by
  set maxns : ℚ := s.nCeilConst + s.nCeilLinear * ((r1.length + r2.length : Nat) : ℚ)
    with hmax
  have hbody : nFilterPair s (some r1) (some r2) =
      (match nFilterPairLoop maxns 0 r1 with
       | none => (false, false)
       | some ns1 =>
         match nFilterPairLoop maxns ns1 r2 with
         | none => (false, false)
         | some _ => (true, true)) := by
    simp only [nFilterPair, hcat, if_true, ← hmax]
  rw [hbody]
  by_cases h1 : r1 = []
  · subst h1
    rw [show nFilterPairLoop maxns 0 [] = some 0 from rfl]
    dsimp only
    by_cases h2 : r2 = []
    · subst h2
      rw [if_pos (Or.inl ⟨rfl, rfl⟩)]
      rfl
    · rw [nFilterPairLoop_spec maxns r2 h2 0]
      have hc1 : countNs ([] : List Nat) = 0 := rfl
      by_cases hck : maxns < ((0 + countNs r2 : Nat) : ℚ)
      · rw [if_pos hck, if_neg ?hno]
        case hno =>
          rintro (⟨-, h⟩ | h)
          · exact h2 h
          · rw [hc1] at h
            push_cast at hck h
            linarith
      · rw [if_neg hck, if_pos (Or.inr (by
          rw [hc1]
          push_cast at hck ⊢
          linarith [not_lt.mp hck]))]
  · rw [nFilterPairLoop_spec maxns r1 h1 0]
    by_cases hck1 : maxns < ((0 + countNs r1 : Nat) : ℚ)
    · rw [if_pos hck1, if_neg ?hno1]
      case hno1 =>
        rintro (⟨h, -⟩ | h)
        · exact h1 h
        · push_cast at hck1 h
          have : (0 : ℚ) ≤ (countNs r2 : ℚ) := by positivity
          linarith
    · rw [if_neg hck1]
      dsimp only
      by_cases h2 : r2 = []
      · subst h2
        rw [show nFilterPairLoop maxns (0 + countNs r1) [] = some (0 + countNs r1) from rfl]
        rw [if_pos (Or.inr (by
          have hc2 : countNs ([] : List Nat) = 0 := rfl
          rw [hc2]
          push_cast at hck1 ⊢
          linarith [not_lt.mp hck1]))]
      · rw [nFilterPairLoop_spec maxns r2 h2 (0 + countNs r1)]
        by_cases hck2 : maxns < ((0 + countNs r1 + countNs r2 : Nat) : ℚ)
        · rw [if_pos hck2, if_neg ?hno2]
          case hno2 =>
            rintro (⟨h, -⟩ | h)
            · exact h1 h
            · push_cast at hck2 h
              linarith
        · rw [if_neg hck2, if_pos (Or.inr (by
            push_cast at hck2 ⊢
            linarith [not_lt.mp hck2]))]

/-- The bwaSwLike-style scheme with a negative N ceiling constant. -/
def scNeg : Scoring := { scTest with nCeilConst := -1, nCeilLinear := 0 }

/-- C5 counterexample: with the pair-concatenation flag set, two empty
mates and a negative combined ceiling, nFilterPair lets both mates pass
(its scanning loops never run, so no check fires), although the total N
count 0 exceeds the combined ceiling -1; so pass is not equivalent to
the total N count fitting under the combined ceiling. -/
theorem nFilterPair_empty_pair_passes :
    scNeg.ncatpair = true ∧
    (nFilterPair scNeg (some []) (some [])).fst = true ∧
    ¬ (((countNs [] + countNs [] : Nat) : ℚ) ≤
        scNeg.nCeilConst + scNeg.nCeilLinear *
          ((List.length ([] : List Nat) + List.length ([] : List Nat) : Nat) : ℚ)) := by
  refine ⟨rfl, rfl, ?_⟩
  norm_num [scNeg, scTest, countNs]

/-- C5 amended: with the pair-concatenation flag set, nFilterPair always
reports the same verdict for both mates, and both pass exactly when
either both mates are empty (no check ever runs) or the total N count
fits under the unclamped combined ceiling
nCeilConst + nCeilLinear * (len1 + len2); with the flag clear the two
mates go through nFilter independently. -/
theorem nFilterPair_spec (s : Scoring) (r1 r2 : List Nat) :
    (s.ncatpair = true →
      ((nFilterPair s (some r1) (some r2)).fst = (nFilterPair s (some r1) (some r2)).snd ∧
       ((nFilterPair s (some r1) (some r2)).fst = true ↔
         (r1 = [] ∧ r2 = []) ∨
         ((countNs r1 + countNs r2 : Nat) : ℚ) ≤
           s.nCeilConst + s.nCeilLinear * ((r1.length + r2.length : Nat) : ℚ)))) ∧
    (s.ncatpair = false →
      nFilterPair s (some r1) (some r2) = (nFilter s r1, nFilter s r2)) := by
  constructor
  · intro hcat
    rw [nFilterPairCat_eq s r1 r2 hcat]
    by_cases hcond : (r1 = [] ∧ r2 = []) ∨
        ((countNs r1 + countNs r2 : Nat) : ℚ) ≤
          s.nCeilConst + s.nCeilLinear * ((r1.length + r2.length : Nat) : ℚ)
    · rw [if_pos hcond]
      exact ⟨rfl, by simpa using hcond⟩
    · rw [if_neg hcond]
      exact ⟨rfl, by simpa using hcond⟩
  · intro hcat
    simp [nFilterPair, hcat]

/-- Witness for the amended C5 at the bwaSwLike-style scheme and the
mates [4] and [0, 4]: combined ceiling 2 + 0.1 * 3 = 2.3, total N count
2, so both mates pass. -/
theorem nFilterPair_spec_witness :
    ((nFilterPair scTest (some [4]) (some [0, 4])).fst =
       (nFilterPair scTest (some [4]) (some [0, 4])).snd ∧
     ((nFilterPair scTest (some [4]) (some [0, 4])).fst = true ↔
       (([4] : List Nat) = [] ∧ ([0, 4] : List Nat) = []) ∨
       ((countNs [4] + countNs [0, 4] : Nat) : ℚ) ≤
         scTest.nCeilConst + scTest.nCeilLinear *
           ((List.length [4] + List.length [0, 4] : Nat) : ℚ))) :=
  (nFilterPair_spec scTest [4] [0, 4]).1 rfl

/-- C6: in every branch of analyzeCell, a cell whose working predecessor
mask (the stored residual when the respective set bit is on, else the
freshly recomputed mask) has no set bit yields empty = true, and
canMoveThru holds exactly when the mask recomputed from scores is 0:
only cells whose predecessor set was originally empty may end an
alignment, not cells exhausted by earlier backtraces. -/
theorem analyzeCell_emptyMaskTerm (nrow ncol : Nat)
    (eeltM feltM heltM : Nat → Nat → Int) (row col refc readc : Nat)
    (readq : Int) (s : Scoring) (offsetsc floorsc : Int)
    (masks : Nat → Nat) (rng : List Nat) (o0 : CellOut)
    (hrep : reportedThroughWord (masks (row * ncol + col)) = false)
    (hrow : row ≠ 0) :
    (eWorkMask ncol eeltM heltM row col s offsetsc floorsc masks = 0 →
      ((analyzeCell nrow ncol eeltM feltM heltM row col 0 refc readc readq s
          offsetsc floorsc masks rng o0).fst.empty = true ∧
       (analyzeCell nrow ncol eeltM feltM heltM row col 0 refc readc readq s
          offsetsc floorsc masks rng o0).fst.canMoveThru =
         (eOrigMask eeltM heltM row col s offsetsc floorsc == 0))) ∧
    (fWorkMask ncol feltM heltM row col s offsetsc floorsc masks = 0 →
      ((analyzeCell nrow ncol eeltM feltM heltM row col 1 refc readc readq s
          offsetsc floorsc masks rng o0).fst.empty = true ∧
       (analyzeCell nrow ncol eeltM feltM heltM row col 1 refc readc readq s
          offsetsc floorsc masks rng o0).fst.canMoveThru =
         (fOrigMask feltM heltM row col s offsetsc floorsc == 0))) ∧
    (hWorkMask ncol eeltM feltM heltM row col refc readc readq s offsetsc floorsc
        (gapsAllowedB nrow row s.gapbar) masks = 0 →
      ((analyzeCell nrow ncol eeltM feltM heltM row col 2 refc readc readq s
          offsetsc floorsc masks rng o0).fst.empty = true ∧
       (analyzeCell nrow ncol eeltM feltM heltM row col 2 refc readc readq s
          offsetsc floorsc masks rng o0).fst.canMoveThru =
         (hOrigMask eeltM feltM heltM row col refc readc readq s offsetsc floorsc
            (gapsAllowedB nrow row s.gapbar) == 0))) := by
  refine ⟨?_, ?_, ?_⟩ <;> intro hw <;>
    simp [analyzeCell, analyzeCellE, analyzeCellF, analyzeCellH, hrep, hrow, hw, alts5, setBits5]

/-- Witness for C6: all-zero mask words, zero score matrices and a zero
floor give empty working masks in all three branches; the cell reports
empty and, because the recomputed masks are also 0, it may end an
alignment. -/
theorem analyzeCell_emptyMaskTerm_witness :
    ((analyzeCell 8 8 (fun _ _ => 0) (fun _ _ => 0) (fun _ _ => 0) 1 1 0 0 0 63
        scTest 0 0 (fun _ => 0) [] ⟨false, 9, false, false, false⟩).fst.empty = true ∧
     (analyzeCell 8 8 (fun _ _ => 0) (fun _ _ => 0) (fun _ _ => 0) 1 1 0 0 0 63
        scTest 0 0 (fun _ => 0) [] ⟨false, 9, false, false, false⟩).fst.canMoveThru =
       (eOrigMask (fun _ _ => 0) (fun _ _ => 0) 1 1 scTest 0 0 == 0)) ∧
    ((analyzeCell 8 8 (fun _ _ => 0) (fun _ _ => 0) (fun _ _ => 0) 1 1 1 0 0 63
        scTest 0 0 (fun _ => 0) [] ⟨false, 9, false, false, false⟩).fst.empty = true ∧
     (analyzeCell 8 8 (fun _ _ => 0) (fun _ _ => 0) (fun _ _ => 0) 1 1 1 0 0 63
        scTest 0 0 (fun _ => 0) [] ⟨false, 9, false, false, false⟩).fst.canMoveThru =
       (fOrigMask (fun _ _ => 0) (fun _ _ => 0) 1 1 scTest 0 0 == 0)) ∧
    ((analyzeCell 8 8 (fun _ _ => 0) (fun _ _ => 0) (fun _ _ => 0) 1 1 2 0 0 63
        scTest 0 0 (fun _ => 0) [] ⟨false, 9, false, false, false⟩).fst.empty = true ∧
     (analyzeCell 8 8 (fun _ _ => 0) (fun _ _ => 0) (fun _ _ => 0) 1 1 2 0 0 63
        scTest 0 0 (fun _ => 0) [] ⟨false, 9, false, false, false⟩).fst.canMoveThru =
       (hOrigMask (fun _ _ => 0) (fun _ _ => 0) (fun _ _ => 0) 1 1 0 0 63 scTest 0 0
          (gapsAllowedB 8 1 scTest.gapbar) == 0)) := by
  obtain ⟨h1, h2, h3⟩ :=
    analyzeCell_emptyMaskTerm 8 8 (fun _ _ => 0) (fun _ _ => 0) (fun _ _ => 0)
      1 1 0 0 63 scTest 0 0 (fun _ => 0) [] ⟨false, 9, false, false, false⟩
      (by decide) (by decide)
  exact ⟨h1 (by decide), h2 (by decide), h3 (by decide)⟩

/-- hMaskSet always turns the H-set bit on. -/
lemma isHMaskSetWord_hMaskSetWord (w m : Nat) :
    isHMaskSetWord (hMaskSetWord w m) = true := by
  have h1 : (hMaskSetWord w m).testBit 1 = true := by
    unfold hMaskSetWord
    rw [Nat.testBit_or, Nat.testBit_or]
    rw [(by decide : ((1 : Nat) <<< 1).testBit 1 = true)]
    simp
  unfold isHMaskSetWord
  have hand := Nat.and_two_pow (hMaskSetWord w m) 1
  simp only [pow_one] at hand
  simp only [Nat.shiftLeft_eq, pow_one, one_mul]
  rw [hand, h1]
  decide

/-- Writing mask 0 through the buggy clear of hMaskSet leaves only the
stale top bit of the field: the field reads back 16 when bit 6 of the
old word was set, else 0. -/
lemma hMaskGetWord_set_zero (w : Nat) :
    hMaskGetWord (hMaskSetWord w 0) = if w.testBit 6 then 16 else 0 := by
  have ta2 : Nat.testBit 65473 2 = false := by decide
  have ta3 : Nat.testBit 65473 3 = false := by decide
  have ta4 : Nat.testBit 65473 4 = false := by decide
  have ta5 : Nat.testBit 65473 5 = false := by decide
  have ta6 : Nat.testBit 65473 6 = true := by decide
  have tb2 : Nat.testBit 2 2 = false := by decide
  have tb3 : Nat.testBit 2 3 = false := by decide
  have tb4 : Nat.testBit 2 4 = false := by decide
  have tb5 : Nat.testBit 2 5 = false := by decide
  have tb6 : Nat.testBit 2 6 = false := by decide
  have tc0 : Nat.testBit 31 0 = true := by decide
  have tc1 : Nat.testBit 31 1 = true := by decide
  have tc2 : Nat.testBit 31 2 = true := by decide
  have tc3 : Nat.testBit 31 3 = true := by decide
  have tc4 : Nat.testBit 31 4 = true := by decide
  have td0 : Nat.testBit 16 0 = false := by decide
  have td1 : Nat.testBit 16 1 = false := by decide
  have td2 : Nat.testBit 16 2 = false := by decide
  have td3 : Nat.testBit 16 3 = false := by decide
  have td4 : Nat.testBit 16 4 = true := by decide
  apply Nat.eq_of_testBit_eq
  intro i
  unfold hMaskGetWord hMaskSetWord not16
  simp only [(rfl : (0 : Nat) <<< 2 = 0), (rfl : (31 : Nat) <<< 1 = 62),
    (rfl : (1 : Nat) <<< 1 = 2), (rfl : (65535 : Nat) ^^^ 62 = 65473),
    Nat.or_zero, Nat.testBit_and, Nat.testBit_or, Nat.testBit_shiftRight]
  rcases Nat.lt_or_ge i 5 with h5 | h5
  · interval_cases i <;> cases h6 : w.testBit 6 <;>
      simp [h6, ta2, ta3, ta4, ta5, ta6, tb2, tb3, tb4, tb5, tb6,
        tc0, tc1, tc2, tc3, tc4, td0, td1, td2, td3, td4]
  · have h31 : Nat.testBit 31 i = false :=
      Nat.testBit_lt_two_pow
        (lt_of_lt_of_le (by norm_num : (31 : Nat) < 2 ^ 5)
          (Nat.pow_le_pow_right (by norm_num) h5))
    have h16 : Nat.testBit 16 i = false :=
      Nat.testBit_lt_two_pow
        (lt_of_lt_of_le (by norm_num : (16 : Nat) < 2 ^ 5)
          (Nat.pow_le_pow_right (by norm_num) h5))
    cases h6 : w.testBit 6 <;> simp [h31, h16]

/-- C8: on an H cell inside the gap barrier (row < gapbar or
nrow - row - 1 < gapbar), the freshly computed predecessor mask can
contain at most the diagonal bit 16; assuming the stored-mask invariant
of the source assertion (a stored H mask in a barrier row is the
diagonal-only mask or empty), the transition analyzeCell returns is
never a gap open or extend (cur is left unchanged or set to the
diagonal transition), and the invariant is preserved by the mask
write-back. -/
theorem analyzeCell_gapBarrier (nrow ncol : Nat)
    (eeltM feltM heltM : Nat → Nat → Int) (row col refc readc : Nat)
    (readq : Int) (s : Scoring) (offsetsc floorsc : Int)
    (masks : Nat → Nat) (rng : List Nat) (o0 : CellOut)
    (hrep : reportedThroughWord (masks (row * ncol + col)) = false)
    (hrow : row ≠ 0)
    (hbar : row < s.gapbar ∨ nrow - row - 1 < s.gapbar)
    (hstored : isHMaskSetWord (masks (row * ncol + col)) = true →
      hMaskGetWord (masks (row * ncol + col)) = 0 ∨
      hMaskGetWord (masks (row * ncol + col)) = 16) :
    (hOrigMask eeltM feltM heltM row col refc readc readq s offsetsc floorsc
        (gapsAllowedB nrow row s.gapbar) = 0 ∨
     hOrigMask eeltM feltM heltM row col refc readc readq s offsetsc floorsc
        (gapsAllowedB nrow row s.gapbar) = 16) ∧
    ((analyzeCell nrow ncol eeltM feltM heltM row col 2 refc readc readq s
        offsetsc floorsc masks rng o0).fst.cur = o0.cur ∨
     (analyzeCell nrow ncol eeltM feltM heltM row col 2 refc readc readq s
        offsetsc floorsc masks rng o0).fst.cur = SW_BT_OALL_DIAG) ∧
    (isHMaskSetWord ((analyzeCell nrow ncol eeltM feltM heltM row col 2 refc readc
        readq s offsetsc floorsc masks rng o0).snd.fst (row * ncol + col)) = true →
      hMaskGetWord ((analyzeCell nrow ncol eeltM feltM heltM row col 2 refc readc
        readq s offsetsc floorsc masks rng o0).snd.fst (row * ncol + col)) = 0 ∨
      hMaskGetWord ((analyzeCell nrow ncol eeltM feltM heltM row col 2 refc readc
        readq s offsetsc floorsc masks rng o0).snd.fst (row * ncol + col)) = 16) := by
  have ha0 : alts5 0 = 0 := by decide
  have ha16 : alts5 16 = 1 := by decide
  have hf16 : firsts5 16 = 4 := by decide
  have hsel : hSelTrans 4 = SW_BT_OALL_DIAG := by decide
  have hga : gapsAllowedB nrow row s.gapbar = false := by
    unfold gapsAllowedB
    simp [hbar]
  have horig : hOrigMask eeltM feltM heltM row col refc readc readq s offsetsc floorsc
      (gapsAllowedB nrow row s.gapbar) = 0 ∨
      hOrigMask eeltM feltM heltM row col refc readc readq s offsetsc floorsc
      (gapsAllowedB nrow row s.gapbar) = 16 := by
    rw [hga]
    unfold hOrigMask
    simp only [Bool.false_eq_true, if_false, Nat.zero_or]
    split <;> split <;> simp
  refine ⟨horig, ?_⟩
  have hwork : hWorkMask ncol eeltM feltM heltM row col refc readc readq s offsetsc
      floorsc (gapsAllowedB nrow row s.gapbar) masks = 0 ∨
      hWorkMask ncol eeltM feltM heltM row col refc readc readq s offsetsc
      floorsc (gapsAllowedB nrow row s.gapbar) masks = 16 := by
    unfold hWorkMask
    by_cases hset : isHMaskSetWord (masks (row * ncol + col)) = true
    · simp only [hset, if_true]
      exact hstored hset
    · simp only [hset, if_false]
      exact horig
  rcases hwork with hw | hw
  · constructor
    · left
      simp [analyzeCell, analyzeCellH, hrep, hrow, hw, ha0]
    · intro hset
      have hm : (analyzeCell nrow ncol eeltM feltM heltM row col 2 refc readc readq s
          offsetsc floorsc masks rng o0).snd.fst = masks := by
        simp [analyzeCell, analyzeCellH, hrep, hrow, hw, ha0]
      rw [hm] at hset ⊢
      exact hstored hset
  · have hm : (analyzeCell nrow ncol eeltM feltM heltM row col 2 refc readc readq s
        offsetsc floorsc masks rng o0).snd.fst =
        Function.update masks (row * ncol + col)
          (hMaskSetWord (masks (row * ncol + col)) 0) := by
      simp [analyzeCell, analyzeCellH, hrep, hrow, hw, ha16]
    constructor
    · right
      simp [analyzeCell, analyzeCellH, hrep, hrow, hw, ha16, hf16, hsel]
    · intro _
      rw [hm, Function.update_same, hMaskGetWord_set_zero]
      by_cases h6 : (masks (row * ncol + col)).testBit 6
      · right; simp [h6]
      · left; simp [h6]

/-- Witness for C8: row 1 of an 8-row matrix with gap barrier 5 is
inside the barrier; with all-zero mask words and zero matrices the
conclusions hold concretely. -/
theorem analyzeCell_gapBarrier_witness :
    (hOrigMask (fun _ _ => 0) (fun _ _ => 0) (fun _ _ => 0) 1 1 0 0 63 scTest 0 0
        (gapsAllowedB 8 1 scTest.gapbar) = 0 ∨
     hOrigMask (fun _ _ => 0) (fun _ _ => 0) (fun _ _ => 0) 1 1 0 0 63 scTest 0 0
        (gapsAllowedB 8 1 scTest.gapbar) = 16) ∧
    ((analyzeCell 8 8 (fun _ _ => 0) (fun _ _ => 0) (fun _ _ => 0) 1 1 2 0 0 63
        scTest 0 0 (fun _ => 0) [] ⟨false, 9, false, false, false⟩).fst.cur =
       (⟨false, 9, false, false, false⟩ : CellOut).cur ∨
     (analyzeCell 8 8 (fun _ _ => 0) (fun _ _ => 0) (fun _ _ => 0) 1 1 2 0 0 63
        scTest 0 0 (fun _ => 0) [] ⟨false, 9, false, false, false⟩).fst.cur =
       SW_BT_OALL_DIAG) ∧
    (isHMaskSetWord ((analyzeCell 8 8 (fun _ _ => 0) (fun _ _ => 0) (fun _ _ => 0)
        1 1 2 0 0 63 scTest 0 0 (fun _ => 0) []
        ⟨false, 9, false, false, false⟩).snd.fst (1 * 8 + 1)) = true →
      hMaskGetWord ((analyzeCell 8 8 (fun _ _ => 0) (fun _ _ => 0) (fun _ _ => 0)
        1 1 2 0 0 63 scTest 0 0 (fun _ => 0) []
        ⟨false, 9, false, false, false⟩).snd.fst (1 * 8 + 1)) = 0 ∨
      hMaskGetWord ((analyzeCell 8 8 (fun _ _ => 0) (fun _ _ => 0) (fun _ _ => 0)
        1 1 2 0 0 63 scTest 0 0 (fun _ => 0) []
        ⟨false, 9, false, false, false⟩).snd.fst (1 * 8 + 1)) = 16) :=
  analyzeCell_gapBarrier 8 8 (fun _ _ => 0) (fun _ _ => 0) (fun _ _ => 0) 1 1 0 0 63
    scTest 0 0 (fun _ => 0) [] ⟨false, 9, false, false, false⟩
    (by decide) (by decide) (by decide) (by decide)

end SW
